import Mathlib

/-!
Verification of the TC66C protocol codec and device session.

Shallow embedding of the repository's Go sources:
  * `lib/tc66c/decrypt.go` — CRC-16/MODBUS, checksum verification, block reordering,
    packet decryption pipeline (the AES block primitive is kept abstract as a
    function parameter; every property proved here is independent of the cipher).
  * `lib/tc66c/data.go` — `ParseReading`, the `Reading` and `RecordingEntry` types.
  * `tc66c.go` — device session: mode gating, `GetReading`, `GetRecordings`,
    paging/rotation commands, and `UpdateFirmware` with its progress callback.

Modelling conventions:
  * a byte is a `Nat`; well-formed byte lists satisfy `Bytes` (all `< 256`);
  * Go `float64` values obtained by scaling exact integers are modelled as exact
    rationals (`ℚ`), so "raw × 1e-4" is `raw / 10000`;
  * Go errors are modelled as inductive error kinds carrying the same data the
    `fmt.Errorf` messages carry;
  * the serial channel is modelled as the list of byte chunks successive `Read`
    calls return (an empty chunk is a zero-length read), and every channel
    interaction a session operation performs is logged as a `ChanEvent`.
-/

namespace TC66C

set_option maxRecDepth 10000

/-- A list of well-formed bytes (each `< 256`). -/
def Bytes (l : List Nat) : Prop := ∀ b ∈ l, b < 256

instance (l : List Nat) : Decidable (Bytes l) := List.decidableBAll _ l

/-- Byte at index `i`, 0 when out of range (all accesses below are in range
once the length guard of the source function has passed). -/
def byteAt (data : List Nat) (i : Nat) : Nat := data.getD i 0

/-- The `n`-byte slice `data[off : off+n]` (Go slicing on an in-bounds range). -/
def slice (data : List Nat) (off n : Nat) : List Nat :=
  (List.range n).map fun i => byteAt data (off + i)

/-- `binary.LittleEndian.Uint16(data[off:off+2])`. -/
def leU16 (data : List Nat) (off : Nat) : Nat :=
  byteAt data off + 256 * byteAt data (off + 1)

/-- `binary.LittleEndian.Uint32(data[off:off+4])`. -/
def leU32 (data : List Nat) (off : Nat) : Nat :=
  byteAt data off + 256 * byteAt data (off + 1) +
    65536 * byteAt data (off + 2) + 16777216 * byteAt data (off + 3)

-- Constants from tc66c.go
def BlockSize : Nat := 64
def NumBlocks : Nat := 3
def PacketSize : Nat := BlockSize * NumBlocks
def FirmwareChunkSize : Nat := 64

/-- ASCII bytes of the source constant `Block1Prefix = "pac1"`. -/
def Block1Tag : List Nat := [112, 97, 99, 49]
/-- ASCII bytes of the source constant `Block2Prefix = "pac2"`. -/
def Block2Tag : List Nat := [112, 97, 99, 50]
/-- ASCII bytes of the source constant `Block3Prefix = "pac3"`. -/
def Block3Tag : List Nat := [112, 97, 99, 51]

/-! ## Checksum Engine (`decrypt.go`) -/

/-- One shift-right step of the CRC inner loop:
`if crc&0x0001 != 0 { crc = (crc >> 1) ^ 0xA001 } else { crc = crc >> 1 }`. -/
def crcShiftStep (crc : Nat) : Nat :=
  if crc % 2 = 1 then (crc / 2) ^^^ 0xA001 else crc / 2

/-- Per-byte CRC update: `crc ^= uint16(b)` followed by the 8-step inner loop. -/
def crcByteStep (crc b : Nat) : Nat :=
  crcShiftStep^[8] (crc ^^^ b)

/-- `CalculateCRC16Modbus` from decrypt.go: accumulator starts at 0xFFFF. -/
def CalculateCRC16Modbus (data : List Nat) : Nat :=
  data.foldl crcByteStep 0xFFFF

/-- `VerifyChecksum` from decrypt.go. -/
def VerifyChecksum (data : List Nat) (expectedCRC : Nat) : Bool :=
  CalculateCRC16Modbus data == expectedCRC

/-! ## Packet structure helpers -/

/-- The 4-byte tag of 64-byte block `k` of a 192-byte buffer. -/
def blockTag (data : List Nat) (k : Nat) : List Nat := slice data (BlockSize * k) 4

/-- The checksummed first 60 bytes of block `k`. -/
def blockBody (data : List Nat) (k : Nat) : List Nat := slice data (BlockSize * k) 60

/-- The stored checksum of block `k`: LE uint16 at block offset 60. -/
def blockStoredCRC (data : List Nat) (k : Nat) : Nat := leU16 data (BlockSize * k + 60)

/-- Checksum validation of block `k` exactly as data.go performs it:
`VerifyChecksum(pacK[0:60], binary.LittleEndian.Uint16(pacK[60:62]))`. -/
def blockChecksumOK (data : List Nat) (k : Nat) : Bool :=
  VerifyChecksum (blockBody data k) (blockStoredCRC data k)

/-! ## Reading (`data.go`) -/

/-- `strings.TrimRight(s, "\x00")` on a byte list. -/
def trimNulRight (l : List Nat) : List Nat :=
  (l.reverse.dropWhile (· = 0)).reverse

/-- The `Reading` struct from data.go.  Scaled `float64` fields are exact
rationals here (the scale factors 1e-4 etc. are exact divisions). -/
structure Reading where
  Product : List Nat
  Version : List Nat
  SerialNumber : Nat
  NumRuns : Nat
  Voltage : ℚ
  Current : ℚ
  Power : ℚ
  Resistance : ℚ
  Group0MAh : Nat
  Group0MWh : Nat
  Group1MAh : Nat
  Group1MWh : Nat
  TemperatureSign : Nat
  Temperature : ℚ
  DPlusVoltage : ℚ
  DMinusVoltage : ℚ
deriving DecidableEq

/-- The field extraction part of `ParseReading` (pure; the Go code interleaves
these reads with the prefix/checksum guards, but they have no side effects and
only the fully populated struct is ever returned).
Offsets: pac1 = bytes 0-63, pac2 = bytes 64-127 of the canonical buffer. -/
def mkReading (data : List Nat) : Reading where
  Product := trimNulRight (slice data 4 4)
  Version := trimNulRight (slice data 8 4)
  SerialNumber := leU32 data 12
  NumRuns := leU32 data 44
  Voltage := (leU32 data 48 : ℚ) / 10000
  Current := (leU32 data 52 : ℚ) / 100000
  Power := (leU32 data 56 : ℚ) / 10000
  Resistance := (leU32 data 68 : ℚ) / 100
  Group0MAh := leU32 data 72
  Group0MWh := leU32 data 76
  Group1MAh := leU32 data 80
  Group1MWh := leU32 data 84
  TemperatureSign := leU32 data 88
  Temperature := if leU32 data 88 ≠ 0 then -(leU32 data 92 : ℚ) else (leU32 data 92 : ℚ)
  DPlusVoltage := (leU32 data 96 : ℚ) / 100
  DMinusVoltage := (leU32 data 100 : ℚ) / 100

/-- Error kinds of the codec (`fmt.Errorf` cases of data.go / decrypt.go). -/
inductive DecodeError where
  /-- wrong overall buffer size -/
  | invalidSize (got : Nat)
  /-- `ReorderBlocks`: "missing %s block" -/
  | missingBlock (tag : List Nat)
  /-- `ParseReading`: "invalid pacK prefix" -/
  | badTag (block : Nat) (got : List Nat)
  /-- `ParseReading`: "pacK checksum verification failed" -/
  | checksumFailed (block : Nat)
deriving DecidableEq

/-- `ParseReading` from data.go.  The guard order is exactly the source's:
size, pac1 tag, pac1 checksum, pac2 tag, pac2 checksum, pac3 tag, pac3
checksum; field extraction is pure and folded into `mkReading`. -/
def ParseReading (data : List Nat) : Except DecodeError Reading :=
  if data.length ≠ PacketSize then .error (.invalidSize data.length)
  else if blockTag data 0 ≠ Block1Tag then .error (.badTag 1 (blockTag data 0))
  else if blockChecksumOK data 0 = false then .error (.checksumFailed 1)
  else if blockTag data 1 ≠ Block2Tag then .error (.badTag 2 (blockTag data 1))
  else if blockChecksumOK data 1 = false then .error (.checksumFailed 2)
  else if blockTag data 2 ≠ Block3Tag then .error (.badTag 3 (blockTag data 2))
  else if blockChecksumOK data 2 = false then .error (.checksumFailed 3)
  else .ok (mkReading data)

/-! ## Block reordering (`decrypt.go`) -/

/-- The 64-byte block `k` of a 192-byte buffer. -/
def blockAt (data : List Nat) (k : Nat) : List Nat := slice data (BlockSize * k) BlockSize

/-- Position of the (last) slot whose tag equals `tag`.  The Go code inserts
slots 0,1,2 into a map keyed by tag, so on duplicate tags the last slot wins —
hence the scan from slot 2 downwards. -/
def findTagPos (data : List Nat) (tag : List Nat) : Option Nat :=
  if blockTag data 2 = tag then some 2
  else if blockTag data 1 = tag then some 1
  else if blockTag data 0 = tag then some 0
  else none

/-- `ReorderBlocks` from decrypt.go: detect the three tagged blocks, fail on a
missing tag (pac1 checked first), return the buffer untouched when already in
canonical order, otherwise emit pac1 ++ pac2 ++ pac3. -/
def ReorderBlocks (data : List Nat) : Except DecodeError (List Nat) :=
  if data.length ≠ PacketSize then .error (.invalidSize data.length)
  else
    match findTagPos data Block1Tag, findTagPos data Block2Tag, findTagPos data Block3Tag with
    | none, _, _ => .error (.missingBlock Block1Tag)
    | some _, none, _ => .error (.missingBlock Block2Tag)
    | some _, some _, none => .error (.missingBlock Block3Tag)
    | some i1, some i2, some i3 =>
      if i1 = 0 ∧ i2 = 1 ∧ i3 = 2 then .ok data
      else .ok (blockAt data i1 ++ blockAt data i2 ++ blockAt data i3)

/-- The decode pipeline applied to a decrypted (plaintext) 192-byte buffer:
`ReorderBlocks` (the tail of `DecryptPacket`) followed by `ParseReading`
(as composed in `GetReading`). -/
def decodePacketPlain (data : List Nat) : Except DecodeError Reading :=
  (ReorderBlocks data).bind ParseReading

/-! ## Concrete fixture: a valid 192-byte plaintext packet

Block bodies are 60 bytes; the stored CRCs (7130 = 0x1BDA, 46899 = 0xB733,
1320 = 0x0528) were computed with `CalculateCRC16Modbus` itself and are
re-checked by `decide` in the witnesses below. -/

/-- pac1 body: tag, product "TC66", version "1.14", serial 12345, runs 7,
voltage raw 51234, current raw 250000, power raw 12816. -/
def pac1Body : List Nat :=
  [112, 97, 99, 49, 84, 67, 54, 54, 49, 46, 49, 52, 57, 48, 0, 0] ++
  List.replicate 28 0 ++
  [7, 0, 0, 0, 34, 200, 0, 0, 144, 208, 3, 0, 16, 50, 0, 0]

/-- pac2 body: tag, resistance raw 2050, group counters 11/22/33/44,
temperature sign 1, temperature raw 29, D+ raw 161, D- raw 12. -/
def pac2Body : List Nat :=
  [112, 97, 99, 50, 2, 8, 0, 0, 11, 0, 0, 0, 22, 0, 0, 0, 33, 0, 0, 0,
   44, 0, 0, 0, 1, 0, 0, 0, 29, 0, 0, 0, 161, 0, 0, 0, 12, 0, 0, 0] ++
  List.replicate 20 0

/-- pac3 body: tag and reserved zero payload. -/
def pac3Body : List Nat := [112, 97, 99, 51] ++ List.replicate 56 0

/-- A fully valid canonical 192-byte plaintext packet. -/
def fixturePacket : List Nat :=
  pac1Body ++ [218, 27, 0, 0] ++ pac2Body ++ [51, 183, 0, 0] ++ pac3Body ++ [40, 5, 0, 0]

/-! ## Recording entries (`data.go`) -/

/-- The `RecordingEntry` struct from data.go (scaled floats as exact rationals). -/
structure RecordingEntry where
  Voltage : ℚ
  Current : ℚ
deriving DecidableEq

/-- One 8-byte record of the recording stream, scaled exactly as the Go loop
does: voltage `/1000.0/10.0`, current `/1000.0/100.0`. -/
def parseRecord (rec : List Nat) : RecordingEntry where
  Voltage := (leU32 rec 0 : ℚ) / 1000 / 10
  Current := (leU32 rec 4 : ℚ) / 1000 / 100

/-! ## Device session (`tc66c.go`)

The serial channel is abstracted as the list of byte chunks that successive
`Read` calls return; an empty chunk models a zero-length (timed-out/idle)
read.  Channel interactions are logged as events so that "touches the
channel" claims are statable. -/

/-- Operating mode of the device, from tc66c.go. -/
inductive DeviceMode where
  | ModeFirmware
  | ModeBootloader
  | ModeUnknown
deriving DecidableEq

/-- A logged interaction with the serial channel. -/
inductive ChanEvent where
  /-- `flushBuffer()` before a command -/
  | flush
  /-- `port.Write(bytes)` -/
  | write (bytes : List Nat)
  /-- a `readResponse(size)` call -/
  | read (size : Nat)
deriving DecidableEq

/-- Session-level error kinds (the `fmt.Errorf` cases of tc66c.go). -/
inductive SessionError where
  /-- "device must be in … mode (current mode: %s)" -/
  | modeError (current : DeviceMode)
  /-- `readResponse` timeout ("got %d of %d bytes") -/
  | readTimeout
  /-- decrypt/parse failure inside `GetReading` -/
  | decodeFailed (e : DecodeError)
  /-- "firmware data is empty" -/
  | emptyFirmware
  /-- update-entry reply differs from "uprdy" -/
  | badUpdateResponse (got : List Nat)
  /-- chunk acknowledgement differs from "OK" -/
  | badChunkResponse (chunk : Nat) (got : List Nat)
deriving DecidableEq

-- ASCII command/response constants from tc66c.go
def CmdQuery : List Nat := [113, 117, 101, 114, 121]
def CmdGetVA : List Nat := [103, 101, 116, 118, 97]
def CmdGetRec : List Nat := [103, 116, 114, 101, 99]
def CmdLastP : List Nat := [108, 97, 115, 116, 112]
def CmdNextP : List Nat := [110, 101, 120, 116, 112]
def CmdRotat : List Nat := [114, 111, 116, 97, 116]
def CmdUpdate : List Nat := [117, 112, 100, 97, 116, 101]
/-- "uprdy" -/
def UpdateModeResponse : List Nat := [117, 112, 114, 100, 121]
/-- "OK" -/
def ChunkOKResponse : List Nat := [79, 75]
/-- command terminator "\r\n" -/
def CRLF : List Nat := [13, 10]

/-- The channel events of `sendCommand(cmd)`: flush, then write `cmd + "\r\n"`. -/
def sendCommandEvents (cmd : List Nat) : List ChanEvent :=
  [ChanEvent.flush, ChanEvent.write (cmd ++ CRLF)]

/-- `readResponse(size)` from tc66c.go: accumulate reads until `size` bytes
are collected; a zero-length read (or an exhausted channel) is the timeout
failure.  Each read fills at most the remaining `size - n` bytes of the
destination slice, hence the `take`. -/
def readResponse (stream : List (List Nat)) (size : Nat) (buf : List Nat) :
    Option (List Nat × List (List Nat)) :=
  if size ≤ buf.length then some (buf, stream)
  else
    match stream with
    | [] => none
    | c :: rest =>
      if c = [] then none
      else readResponse rest size (buf ++ c.take (size - buf.length))

/-- The ECB loop of `DecryptPacket`: the block-cipher primitive (`aes.NewCipher`
with the static key + `block.Decrypt`) is abstract here — a function applied
independently to each of the twelve 16-byte segments. -/
def applyECB (decrypt : List Nat → List Nat) (data : List Nat) : List Nat :=
  ((List.range (PacketSize / 16)).map fun i => decrypt (slice data (16 * i) 16)).flatten

/-- `DecryptPacket` from decrypt.go: size guard, per-block decryption, then
`ReorderBlocks`. -/
def DecryptPacket (decrypt : List Nat → List Nat) (encrypted : List Nat) :
    Except DecodeError (List Nat) :=
  if encrypted.length ≠ PacketSize then .error (.invalidSize encrypted.length)
  else ReorderBlocks (applyECB decrypt encrypted)

/-- `GetReading` from tc66c.go: firmware-mode guard, `sendCommand("getva")`,
read 192 bytes, decrypt, parse. -/
def GetReading (decrypt : List Nat → List Nat) (mode : DeviceMode)
    (stream : List (List Nat)) : Except SessionError Reading × List ChanEvent :=
  if mode ≠ DeviceMode.ModeFirmware then (.error (.modeError mode), [])
  else
    let evs := sendCommandEvents CmdGetVA ++ [ChanEvent.read PacketSize]
    match readResponse stream PacketSize [] with
    | none => (.error .readTimeout, evs)
    | some (encrypted, _) =>
      match DecryptPacket decrypt encrypted with
      | .error e => (.error (.decodeFailed e), evs)
      | .ok plain =>
        match ParseReading plain with
        | .error e => (.error (.decodeFailed e), evs)
        | .ok r => (.ok r, evs)

/-- The buffer-draining inner loop of `GetRecordings`: consume complete 8-byte
records (`for len(buffer) >= 8`), returning the parsed entries and the
leftover (< 8 byte) buffer. -/
def consumeRecords (buffer : List Nat) : List RecordingEntry × List Nat :=
  if h : 8 ≤ buffer.length then
    let e := parseRecord (buffer.take 8)
    let (es, rest) := consumeRecords (buffer.drop 8)
    (e :: es, rest)
  else ([], buffer)
termination_by buffer.length
decreasing_by simp; omega

/-- The read loop of `GetRecordings`: read a chunk, stop on a zero-length
read, otherwise append it to the buffer and drain complete records. -/
def getRecordingsLoop (chunks : List (List Nat)) (buffer : List Nat) :
    List RecordingEntry × List ChanEvent :=
  match chunks with
  | [] => ([], [])
  | c :: rest =>
    if c = [] then ([], [ChanEvent.read 8])
    else
      let (es, buffer2) := consumeRecords (buffer ++ c)
      let (more, evs) := getRecordingsLoop rest buffer2
      (es ++ more, ChanEvent.read 8 :: evs)

/-- `GetRecordings` from tc66c.go: firmware-mode guard, `sendCommand("gtrec")`,
then the chunked read loop. -/
def GetRecordings (mode : DeviceMode) (chunks : List (List Nat)) :
    Except SessionError (List RecordingEntry) × List ChanEvent :=
  if mode ≠ DeviceMode.ModeFirmware then (.error (.modeError mode), [])
  else
    let (es, revs) := getRecordingsLoop chunks []
    (.ok es, sendCommandEvents CmdGetRec ++ revs)

/-- `PreviousPage` from tc66c.go: firmware-mode guard, `sendCommand("lastp")`. -/
def PreviousPage (mode : DeviceMode) : Except SessionError Unit × List ChanEvent :=
  if mode ≠ DeviceMode.ModeFirmware then (.error (.modeError mode), [])
  else (.ok (), sendCommandEvents CmdLastP)

/-- `NextPage` from tc66c.go. -/
def NextPage (mode : DeviceMode) : Except SessionError Unit × List ChanEvent :=
  if mode ≠ DeviceMode.ModeFirmware then (.error (.modeError mode), [])
  else (.ok (), sendCommandEvents CmdNextP)

/-- `RotateScreen` from tc66c.go. -/
def RotateScreen (mode : DeviceMode) : Except SessionError Unit × List ChanEvent :=
  if mode ≠ DeviceMode.ModeFirmware then (.error (.modeError mode), [])
  else (.ok (), sendCommandEvents CmdRotat)

/-- `FirmwareUpdateProgress` from tc66c.go. -/
structure FirmwareUpdateProgress where
  BytesSent : Nat
  TotalBytes : Nat
  ChunksSent : Nat
  TotalChunks : Nat
deriving DecidableEq

attribute [ext] FirmwareUpdateProgress

/-- The chunk-transfer loop of `UpdateFirmware`: while `bytesSent < len(fw)`,
write the next (up to 64-byte) chunk, read the 2-byte acknowledgement,
require "OK", then record one `FirmwareUpdateProgress` observation (the list
of progress values models the ordered sequence of `progressCallback`
invocations). -/
def sendChunks (fw : List Nat) (totalChunks : Nat) (stream : List (List Nat))
    (bytesSent chunksSent : Nat) :
    Except SessionError Unit × List ChanEvent × List FirmwareUpdateProgress :=
  if h : bytesSent < fw.length then
    let chunk := (fw.drop bytesSent).take FirmwareChunkSize
    match readResponse stream 2 [] with
    | none => (.error .readTimeout, [ChanEvent.write chunk, ChanEvent.read 2], [])
    | some (resp, stream2) =>
      if resp ≠ ChunkOKResponse then
        (.error (.badChunkResponse (chunksSent + 1) resp),
         [ChanEvent.write chunk, ChanEvent.read 2], [])
      else
        let bytesSent2 := bytesSent + chunk.length
        let p : FirmwareUpdateProgress :=
          ⟨bytesSent2, fw.length, chunksSent + 1, totalChunks⟩
        let (r, evs, ps) := sendChunks fw totalChunks stream2 bytesSent2 (chunksSent + 1)
        (r, ChanEvent.write chunk :: ChanEvent.read 2 :: evs, p :: ps)
  else (.ok (), [], [])
termination_by fw.length - bytesSent
decreasing_by simp [FirmwareChunkSize]; omega

/-- `UpdateFirmware` from tc66c.go: bootloader-mode safety check, empty-input
check, chunk count `ceil(len/64)`, `sendCommand("update")`, 5-byte "uprdy"
response, then the chunk loop. -/
def UpdateFirmware (mode : DeviceMode) (fw : List Nat) (stream : List (List Nat)) :
    Except SessionError Unit × List ChanEvent × List FirmwareUpdateProgress :=
  if mode ≠ DeviceMode.ModeBootloader then (.error (.modeError mode), [], [])
  else if fw.length = 0 then (.error .emptyFirmware, [], [])
  else
    let chunkCount := (fw.length + FirmwareChunkSize - 1) / FirmwareChunkSize
    let evs0 := sendCommandEvents CmdUpdate ++ [ChanEvent.read 5]
    match readResponse stream 5 [] with
    | none => (.error .readTimeout, evs0, [])
    | some (resp, stream2) =>
      if resp ≠ UpdateModeResponse then (.error (.badUpdateResponse resp), evs0, [])
      else
        let (r, evs, ps) := sendChunks fw chunkCount stream2 0 0
        (r, evs0 ++ evs, ps)

/-! ## Helper lemmas about the fixture packet -/

theorem fixture_length : fixturePacket.length = 192 := by decide

theorem fixture_tag0 : blockTag fixturePacket 0 = Block1Tag := by decide

theorem fixture_tag1 : blockTag fixturePacket 1 = Block2Tag := by decide

theorem fixture_tag2 : blockTag fixturePacket 2 = Block3Tag := by decide

theorem fixture_bytes : Bytes fixturePacket := by decide

/-- The simp set that grinds a `CalculateCRC16Modbus` application on a
concrete byte list down to a numeral. -/
theorem fixture_crc1 : CalculateCRC16Modbus pac1Body = 7130 := by
  simp [CalculateCRC16Modbus, crcByteStep, crcShiftStep, pac1Body,
        Function.iterate_succ_apply, Function.iterate_zero_apply,
        List.replicate, List.foldl_append, List.foldl]

theorem fixture_crc2 : CalculateCRC16Modbus pac2Body = 46899 := by
  simp [CalculateCRC16Modbus, crcByteStep, crcShiftStep, pac2Body,
        Function.iterate_succ_apply, Function.iterate_zero_apply,
        List.replicate, List.foldl_append, List.foldl]

theorem fixture_crc3 : CalculateCRC16Modbus pac3Body = 1320 := by
  simp [CalculateCRC16Modbus, crcByteStep, crcShiftStep, pac3Body,
        Function.iterate_succ_apply, Function.iterate_zero_apply,
        List.replicate, List.foldl_append, List.foldl]

theorem fixture_body0 : blockBody fixturePacket 0 = pac1Body := by decide

theorem fixture_body1 : blockBody fixturePacket 1 = pac2Body := by decide

theorem fixture_body2 : blockBody fixturePacket 2 = pac3Body := by decide

theorem fixture_csOK0 : blockChecksumOK fixturePacket 0 = true := by
  rw [blockChecksumOK, fixture_body0, VerifyChecksum, fixture_crc1]
  decide

theorem fixture_csOK1 : blockChecksumOK fixturePacket 1 = true := by
  rw [blockChecksumOK, fixture_body1, VerifyChecksum, fixture_crc2]
  decide

theorem fixture_csOK2 : blockChecksumOK fixturePacket 2 = true := by
  rw [blockChecksumOK, fixture_body2, VerifyChecksum, fixture_crc3]
  decide

theorem fixture_parse : ParseReading fixturePacket = .ok (mkReading fixturePacket) := by
  rw [ParseReading]
  simp [fixture_length, fixture_tag0, fixture_tag1, fixture_tag2,
        fixture_csOK0, fixture_csOK1, fixture_csOK2, PacketSize, BlockSize, NumBlocks]

/-! ## Claim C5 — CRC-16/MODBUS -/

/-- C5: `CalculateCRC16Modbus` implements CRC-16/MODBUS exactly: the
accumulator starts at 0xFFFF (value on empty input), each input byte is
XOR-ed into the accumulator and followed by 8 shift-right steps XOR-ing in
0xA001 when the shifted-out bit is 1 (the recurrence below, with
`crcShiftStep` spelled out), and the known vectors hold:
`crc16_modbus([]) = 0xFFFF`, `crc16_modbus([0x00]) = 0x40BF`. -/
theorem crc16_modbus_spec :
    CalculateCRC16Modbus [] = 0xFFFF ∧
    CalculateCRC16Modbus [0x00] = 0x40BF ∧
    (∀ l b, CalculateCRC16Modbus (l ++ [b]) =
      crcShiftStep^[8] (CalculateCRC16Modbus l ^^^ b)) ∧
    (∀ c, crcShiftStep c = if c &&& 0x0001 ≠ 0 then (c >>> 1) ^^^ 0xA001 else c >>> 1) := by
  refine ⟨rfl, by decide, fun l b => ?_, fun c => by
    rw [crcShiftStep, Nat.and_one_is_mod, Nat.shiftRight_one]
    rcases Nat.mod_two_eq_zero_or_one c with h | h <;> simp [h]⟩
  simp [CalculateCRC16Modbus, List.foldl_append, crcByteStep]

/-! ## Claim C1 — field decoding of valid packets -/

/-- C1: for every 192-byte decrypted packet whose three blocks carry the
correct tags and correct CRC-16/MODBUS checksums, `ParseReading` succeeds and
the resulting `Reading` carries exactly the scaled fixed-point inputs:
voltage = LE uint32 at bytes 48-51 × 1e-4, current = bytes 52-55 × 1e-5,
power = bytes 56-59 × 1e-4, run count = LE uint32 at byte 44, resistance =
pac2 bytes 4-7 (absolute 68-71) × 1e-2, D+/D- voltages × 1e-2, and the
temperature is the unscaled magnitude, negated exactly when the sign-flag
uint32 is nonzero. -/
theorem parseReading_valid_fields (data : List Nat)
    (hlen : data.length = PacketSize)
    (h1 : blockTag data 0 = Block1Tag)
    (h2 : blockTag data 1 = Block2Tag)
    (h3 : blockTag data 2 = Block3Tag)
    (c1 : blockChecksumOK data 0 = true)
    (c2 : blockChecksumOK data 1 = true)
    (c3 : blockChecksumOK data 2 = true) :
    ∃ r, ParseReading data = .ok r ∧
      r.Voltage = (leU32 data 48 : ℚ) / 10000 ∧
      r.Current = (leU32 data 52 : ℚ) / 100000 ∧
      r.Power = (leU32 data 56 : ℚ) / 10000 ∧
      r.NumRuns = leU32 data 44 ∧
      r.Resistance = (leU32 data 68 : ℚ) / 100 ∧
      r.DPlusVoltage = (leU32 data 96 : ℚ) / 100 ∧
      r.DMinusVoltage = (leU32 data 100 : ℚ) / 100 ∧
      r.TemperatureSign = leU32 data 88 ∧
      r.Temperature =
        (if leU32 data 88 ≠ 0 then -(leU32 data 92 : ℚ) else (leU32 data 92 : ℚ)) := by
  refine ⟨mkReading data, ?_, rfl, rfl, rfl, rfl, rfl, rfl, rfl, rfl, rfl⟩
  rw [ParseReading]
  simp [hlen, h1, h2, h3, c1, c2, c3]

/-- Witness for C1 at the concrete fixture packet. -/
theorem parseReading_valid_fields_witness :
    ∃ r, ParseReading fixturePacket = .ok r ∧
      r.Voltage = (leU32 fixturePacket 48 : ℚ) / 10000 ∧
      r.Current = (leU32 fixturePacket 52 : ℚ) / 100000 ∧
      r.Power = (leU32 fixturePacket 56 : ℚ) / 10000 ∧
      r.NumRuns = leU32 fixturePacket 44 ∧
      r.Resistance = (leU32 fixturePacket 68 : ℚ) / 100 ∧
      r.DPlusVoltage = (leU32 fixturePacket 96 : ℚ) / 100 ∧
      r.DMinusVoltage = (leU32 fixturePacket 100 : ℚ) / 100 ∧
      r.TemperatureSign = leU32 fixturePacket 88 ∧
      r.Temperature =
        (if leU32 fixturePacket 88 ≠ 0 then -(leU32 fixturePacket 92 : ℚ)
         else (leU32 fixturePacket 92 : ℚ)) :=
  parseReading_valid_fields fixturePacket (by decide) fixture_tag0 fixture_tag1
    fixture_tag2 fixture_csOK0 fixture_csOK1 fixture_csOK2

/-! ## Claim C3 — the firmware-update mode check is internal -/

/-- C3 counterexample: the claim says `UpdateFirmware` performs no mode check
of its own.  In fact, with a session in Firmware mode and a fully compliant
channel (ready to answer "uprdy" and "OK") and non-empty firmware, the call
fails with the mode error and performs no channel interaction at all — the
internal check fired. -/
theorem updateFirmware_no_internal_check_counterexample :
    UpdateFirmware DeviceMode.ModeFirmware [1] [UpdateModeResponse, ChunkOKResponse] =
      (.error (.modeError DeviceMode.ModeFirmware), [], []) := rfl

/-- C3 (amended): `UpdateFirmware` DOES internally verify the Bootloader-mode
precondition against the mode detected at construction: for every session
mode other than Bootloader it fails with a mode error before any flush,
write or read. -/
theorem updateFirmware_checks_mode_internally (mode : DeviceMode) (fw : List Nat)
    (stream : List (List Nat)) (h : mode ≠ DeviceMode.ModeBootloader) :
    UpdateFirmware mode fw stream = (.error (.modeError mode), [], []) := by
  rw [UpdateFirmware]
  simp [h]

/-- Witness for the amended C3 at a concrete non-bootloader session. -/
theorem updateFirmware_checks_mode_internally_witness :
    DeviceMode.ModeFirmware ≠ DeviceMode.ModeBootloader ∧
    UpdateFirmware DeviceMode.ModeFirmware [1, 2, 3] [[117, 112, 114, 100, 121]] =
      (.error (.modeError DeviceMode.ModeFirmware), [], []) :=
  ⟨by decide, updateFirmware_checks_mode_internally _ _ _ (by decide)⟩

/-! ## Claim C9 — bootloader mode gates telemetry/recording/paging -/

/-- C9: a session whose mode query answered "boot" (Bootloader mode) fails
every telemetry (`GetReading`), recording (`GetRecordings`) and
paging/rotation (`PreviousPage`, `NextPage`, `RotateScreen`) operation
immediately with the mode error, with an empty channel-interaction trace:
no flush, write or read occurs during the failing call, whatever the
channel holds and whatever the cipher is. -/
theorem bootloader_mode_gates_commands :
    ∀ (decrypt : List Nat → List Nat) (stream chunks : List (List Nat)),
      GetReading decrypt DeviceMode.ModeBootloader stream =
        (.error (.modeError DeviceMode.ModeBootloader), []) ∧
      GetRecordings DeviceMode.ModeBootloader chunks =
        (.error (.modeError DeviceMode.ModeBootloader), []) ∧
      PreviousPage DeviceMode.ModeBootloader =
        (.error (.modeError DeviceMode.ModeBootloader), []) ∧
      NextPage DeviceMode.ModeBootloader =
        (.error (.modeError DeviceMode.ModeBootloader), []) ∧
      RotateScreen DeviceMode.ModeBootloader =
        (.error (.modeError DeviceMode.ModeBootloader), []) :=
  fun _ _ _ => ⟨rfl, rfl, rfl, rfl, rfl⟩

/-! ## Claim C8 — a missing tag fails block reordering -/

/-- C8: for every 192-byte plaintext in which one of the three required tags
is absent from all three 64-byte slots (its slot carrying an unrecognized
value instead), `ReorderBlocks` fails with a missing-block FormatError — no
canonical buffer is produced — regardless of which tag is missing. -/
theorem reorderBlocks_missing_tag (data t : List Nat)
    (hlen : data.length = PacketSize)
    (ht : t = Block1Tag ∨ t = Block2Tag ∨ t = Block3Tag)
    (h0 : blockTag data 0 ≠ t) (h1 : blockTag data 1 ≠ t) (h2 : blockTag data 2 ≠ t) :
    ∃ u, ReorderBlocks data = .error (.missingBlock u) := by
  have hnone : findTagPos data t = none := by
    rw [findTagPos]
    simp [h0, h1, h2]
  rw [ReorderBlocks]
  simp only [hlen, ne_eq, not_true_eq_false, if_false]
  rcases ht with rfl | rfl | rfl
  · rw [hnone]
    exact ⟨Block1Tag, rfl⟩
  · cases hf1 : findTagPos data Block1Tag
    · exact ⟨Block1Tag, rfl⟩
    · rw [hnone]
      exact ⟨Block2Tag, rfl⟩
  · cases hf1 : findTagPos data Block1Tag
    · exact ⟨Block1Tag, rfl⟩
    · cases hf2 : findTagPos data Block2Tag
      · exact ⟨Block2Tag, rfl⟩
      · rw [hnone]
        exact ⟨Block3Tag, rfl⟩

/-- Witness for C8: an all-zero 192-byte buffer misses the pac1 tag. -/
theorem reorderBlocks_missing_tag_witness :
    (List.replicate 192 0).length = PacketSize ∧
    ∃ u, ReorderBlocks (List.replicate 192 0) = .error (.missingBlock u) :=
  ⟨by decide,
   reorderBlocks_missing_tag (List.replicate 192 0) Block1Tag (by decide)
     (Or.inl rfl) (by decide) (by decide) (by decide)⟩

/-! ## Congruence helpers: which bytes the parser actually reads -/

theorem byteAt_set (data : List Nat) (p v i : Nat) :
    byteAt (data.set p v) i = if p = i ∧ p < data.length then v else byteAt data i := by
  simp only [byteAt, List.getD_eq_getElem?_getD, List.getElem?_set]
  rcases eq_or_ne p i with rfl | h1
  · by_cases h2 : p < data.length
    · simp [h2]
    · simp [h2, List.getElem?_eq_none (le_of_not_lt h2)]
  · simp [h1]

theorem slice_congr (data data' : List Nat) (off n : Nat)
    (h : ∀ i, i < n → byteAt data (off + i) = byteAt data' (off + i)) :
    slice data off n = slice data' off n := by
  unfold slice
  apply List.map_congr_left
  intro i hi
  exact h i (List.mem_range.mp hi)

theorem leU16_congr (data data' : List Nat) (off : Nat)
    (h : ∀ i, i < 2 → byteAt data (off + i) = byteAt data' (off + i)) :
    leU16 data off = leU16 data' off := by
  unfold leU16
  have h0 := h 0 (by omega)
  simp only [Nat.add_zero] at h0
  rw [h0, h 1 (by omega)]

theorem leU32_congr (data data' : List Nat) (off : Nat)
    (h : ∀ i, i < 4 → byteAt data (off + i) = byteAt data' (off + i)) :
    leU32 data off = leU32 data' off := by
  unfold leU32
  have h0 := h 0 (by omega)
  simp only [Nat.add_zero] at h0
  rw [h0, h 1 (by omega), h 2 (by omega), h 3 (by omega)]

theorem mkReading_congr (data data' : List Nat)
    (h : ∀ i, i % 64 ≤ 61 → byteAt data i = byteAt data' i) :
    mkReading data = mkReading data' := by
  have e4 : slice data 4 4 = slice data' 4 4 :=
    slice_congr _ _ _ _ (fun i hi => h _ (by omega))
  have e8 : slice data 8 4 = slice data' 8 4 :=
    slice_congr _ _ _ _ (fun i hi => h _ (by omega))
  have e32 : ∀ off : Nat, off + 4 ≤ 60 ∨ (64 ≤ off ∧ off + 4 ≤ 124) →
      leU32 data off = leU32 data' off := by
    intro off hoff
    exact leU32_congr _ _ _ (fun i hi => h _ (by omega))
  simp only [mkReading, Reading.mk.injEq]
  refine ⟨congrArg trimNulRight e4, congrArg trimNulRight e8, ?_, ?_, ?_, ?_, ?_, ?_,
    ?_, ?_, ?_, ?_, ?_, ?_, ?_, ?_⟩ <;>
    rw [e32 _ (by omega)] <;> try rw [e32 _ (by omega)]

/-! ## Claim C10 — reserved bytes 62-63 of each block are never read -/

/-- C10: two 192-byte decrypted buffers that agree everywhere except
(possibly) at the reserved bytes 62-63 of each 64-byte block (indices `i`
with `i % 64 ≥ 62`) produce identical `ParseReading` outcomes — the same
`Reading` on success and the same error on failure.  The reserved bytes are
never read or validated, even though the checksum slot is nominally 32 bits
wide. -/
theorem parseReading_ignores_reserved_bytes (data data' : List Nat)
    (hlen : data.length = data'.length)
    (h : ∀ i, i % 64 ≤ 61 → byteAt data i = byteAt data' i) :
    ParseReading data = ParseReading data' := by
  have et : ∀ k : Nat, k ≤ 2 → blockTag data k = blockTag data' k := by
    intro k hk
    unfold blockTag
    exact slice_congr _ _ _ _ (fun i hi => h _ (by simp only [BlockSize]; omega))
  have ec : ∀ k : Nat, k ≤ 2 → blockChecksumOK data k = blockChecksumOK data' k := by
    intro k hk
    unfold blockChecksumOK VerifyChecksum blockBody blockStoredCRC
    rw [slice_congr data data' (BlockSize * k) 60
          (fun i hi => h _ (by simp only [BlockSize]; omega)),
        leU16_congr data data' (BlockSize * k + 60)
          (fun i hi => h _ (by simp only [BlockSize]; omega))]
  rw [ParseReading, ParseReading, hlen, et 0 (by omega), et 1 (by omega), et 2 (by omega),
      ec 0 (by omega), ec 1 (by omega), ec 2 (by omega), mkReading_congr data data' h]

/-- Witness for C10: the fixture packet with reserved byte 62 overwritten
decodes to the same outcome as the fixture itself. -/
theorem parseReading_ignores_reserved_bytes_witness :
    fixturePacket.length = (fixturePacket.set 62 255).length ∧
    ParseReading fixturePacket = ParseReading (fixturePacket.set 62 255) :=
  ⟨by simp,
   parseReading_ignores_reserved_bytes _ _ (by simp) (by
     intro i hi
     rw [byteAt_set]
     have hne : ¬(62 = i ∧ 62 < fixturePacket.length) := by
       rintro ⟨rfl, _⟩
       omega
     simp [hne])⟩

/-! ## Slice/append helpers for block reordering -/

theorem byteAt_append_left (x y : List Nat) (i : Nat) (h : i < x.length) :
    byteAt (x ++ y) i = byteAt x i := by
  simp [byteAt, List.getD_eq_getElem?_getD, List.getElem?_append, h]

theorem byteAt_append_right (x y : List Nat) (i : Nat) (h : x.length ≤ i) :
    byteAt (x ++ y) i = byteAt y (i - x.length) := by
  simp [byteAt, List.getD_eq_getElem?_getD, List.getElem?_append, Nat.not_lt.mpr h]

theorem slice_append_left (x rest : List Nat) (off n : Nat) (h : off + n ≤ x.length) :
    slice (x ++ rest) off n = slice x off n := by
  unfold slice
  apply List.map_congr_left
  intro i hi
  exact byteAt_append_left _ _ _ (by have := List.mem_range.mp hi; omega)

theorem slice_append_add (x rest : List Nat) (off n : Nat) :
    slice (x ++ rest) (x.length + off) n = slice rest off n := by
  unfold slice
  apply List.map_congr_left
  intro i _
  rw [byteAt_append_right _ _ _ (by omega)]
  congr 1
  omega

theorem slice_eq_self (x : List Nat) (n : Nat) (h : x.length = n) : slice x 0 n = x := by
  apply List.ext_getElem
  · simp [slice, h]
  · intro i h1 h2
    simp only [slice, List.getElem_map, List.getElem_range, byteAt, Nat.zero_add,
      List.getD_eq_getElem?_getD, List.getElem?_eq_getElem h2, Option.getD_some]

/-- Tags and blocks of a buffer assembled from three 64-byte slots. -/
theorem reorderBlocks_slots (x y z : List Nat)
    (hx : x.length = 64) (hy : y.length = 64) (hz : z.length = 64)
    (tx ty tz : List Nat)
    (htx : slice x 0 4 = tx) (hty : slice y 0 4 = ty) (htz : slice z 0 4 = tz) :
    blockTag (x ++ y ++ z) 0 = tx ∧ blockTag (x ++ y ++ z) 1 = ty ∧
    blockTag (x ++ y ++ z) 2 = tz ∧ blockAt (x ++ y ++ z) 0 = x ∧
    blockAt (x ++ y ++ z) 1 = y ∧ blockAt (x ++ y ++ z) 2 = z ∧
    (x ++ y ++ z).length = PacketSize := by
  refine ⟨?_, ?_, ?_, ?_, ?_, ?_,
    by simp [PacketSize, BlockSize, NumBlocks, hx, hy, hz]⟩
  · rw [blockTag, show BlockSize * 0 = (0 : Nat) by decide,
        slice_append_left _ _ _ _ (by rw [List.length_append]; omega),
        slice_append_left _ _ _ _ (by omega), htx]
  · rw [blockTag, show BlockSize * 1 = (64 : Nat) by decide,
        slice_append_left _ _ _ _ (by rw [List.length_append]; omega),
        show (64 : Nat) = x.length + 0 by omega, slice_append_add, hty]
  · rw [blockTag, show BlockSize * 2 = (x ++ y).length + 0 by
          rw [List.length_append, hx, hy]; decide,
        slice_append_add, htz]
  · rw [blockAt, show BlockSize * 0 = (0 : Nat) by decide,
        show BlockSize = (64 : Nat) by decide,
        slice_append_left _ _ _ _ (by rw [List.length_append]; omega),
        slice_append_left _ _ _ _ (by omega), slice_eq_self _ _ hx]
  · rw [blockAt, show BlockSize * 1 = (64 : Nat) by decide,
        show BlockSize = (64 : Nat) by decide,
        slice_append_left _ _ _ _ (by rw [List.length_append]; omega),
        show (64 : Nat) = x.length + 0 by omega, slice_append_add,
        slice_eq_self _ _ (by omega)]
  · rw [blockAt, show BlockSize = (64 : Nat) by decide,
        show (64 : Nat) * 2 = (x ++ y).length + 0 by rw [List.length_append, hx, hy],
        slice_append_add, slice_eq_self _ _ hz]

/-- A buffer already in pac1-pac2-pac3 order is returned untouched. -/
theorem reorderBlocks_canonical (b1 b2 b3 : List Nat)
    (h1 : b1.length = 64) (h2 : b2.length = 64) (h3 : b3.length = 64)
    (t1 : slice b1 0 4 = Block1Tag) (t2 : slice b2 0 4 = Block2Tag)
    (t3 : slice b3 0 4 = Block3Tag) :
    ReorderBlocks (b1 ++ b2 ++ b3) = .ok (b1 ++ b2 ++ b3) := by
  obtain ⟨T0, T1, T2, _, _, _, L⟩ := reorderBlocks_slots b1 b2 b3 h1 h2 h3 _ _ _ t1 t2 t3
  have f1 : findTagPos (b1 ++ b2 ++ b3) Block1Tag = some 0 := by
    rw [findTagPos, T2, T1, T0]; decide
  have f2 : findTagPos (b1 ++ b2 ++ b3) Block2Tag = some 1 := by
    rw [findTagPos, T2, T1, T0]; decide
  have f3 : findTagPos (b1 ++ b2 ++ b3) Block3Tag = some 2 := by
    rw [findTagPos, T2, T1, T0]; decide
  rw [ReorderBlocks, if_neg (by rw [L]; simp), f1, f2, f3]
  rfl

/-! ## Claim C4 — decoding is independent of block placement -/

/-- C4: decoding is order-independent over block placement: for three
64-byte blocks `b1 b2 b3` carrying the pac1/pac2/pac3 tags, every one of the
6 permutations of the blocks inside the 192-byte buffer decodes (reorder
followed by `ParseReading`) to exactly the same result as the canonical
pac1-pac2-pac3 order. -/
theorem decode_block_order_independent (b1 b2 b3 x y z : List Nat)
    (h1 : b1.length = 64) (h2 : b2.length = 64) (h3 : b3.length = 64)
    (t1 : slice b1 0 4 = Block1Tag) (t2 : slice b2 0 4 = Block2Tag)
    (t3 : slice b3 0 4 = Block3Tag)
    (hperm : (x = b1 ∧ y = b2 ∧ z = b3) ∨ (x = b1 ∧ y = b3 ∧ z = b2) ∨
             (x = b2 ∧ y = b1 ∧ z = b3) ∨ (x = b2 ∧ y = b3 ∧ z = b1) ∨
             (x = b3 ∧ y = b1 ∧ z = b2) ∨ (x = b3 ∧ y = b2 ∧ z = b1)) :
    decodePacketPlain (x ++ y ++ z) = decodePacketPlain (b1 ++ b2 ++ b3) := by
  have hcan := reorderBlocks_canonical b1 b2 b3 h1 h2 h3 t1 t2 t3
  rcases hperm with hp | hp | hp | hp | hp | hp <;>
    obtain ⟨rfl, rfl, rfl⟩ := hp
  · rfl
  · -- slots carry pac1, pac3, pac2; canonical buffer is x ++ z ++ y
    obtain ⟨T0, T1, T2, A0, A1, A2, L⟩ :=
      reorderBlocks_slots x y z h1 h3 h2 _ _ _ t1 t3 t2
    have f1 : findTagPos (x ++ y ++ z) Block1Tag = some 0 := by
      rw [findTagPos, T2, T1, T0]; decide
    have f2 : findTagPos (x ++ y ++ z) Block2Tag = some 2 := by
      rw [findTagPos, T2, T1, T0]; decide
    have f3 : findTagPos (x ++ y ++ z) Block3Tag = some 1 := by
      rw [findTagPos, T2, T1, T0]; decide
    have hre : ReorderBlocks (x ++ y ++ z) =
        .ok (blockAt (x ++ y ++ z) 0 ++ blockAt (x ++ y ++ z) 2 ++ blockAt (x ++ y ++ z) 1) := by
      rw [ReorderBlocks, if_neg (by rw [L]; simp), f1, f2, f3]
      rfl
    rw [decodePacketPlain, decodePacketPlain, hcan, hre, A0, A2, A1]
  · -- slots carry pac2, pac1, pac3; canonical buffer is y ++ x ++ z
    obtain ⟨T0, T1, T2, A0, A1, A2, L⟩ :=
      reorderBlocks_slots x y z h2 h1 h3 _ _ _ t2 t1 t3
    have f1 : findTagPos (x ++ y ++ z) Block1Tag = some 1 := by
      rw [findTagPos, T2, T1, T0]; decide
    have f2 : findTagPos (x ++ y ++ z) Block2Tag = some 0 := by
      rw [findTagPos, T2, T1, T0]; decide
    have f3 : findTagPos (x ++ y ++ z) Block3Tag = some 2 := by
      rw [findTagPos, T2, T1, T0]; decide
    have hre : ReorderBlocks (x ++ y ++ z) =
        .ok (blockAt (x ++ y ++ z) 1 ++ blockAt (x ++ y ++ z) 0 ++ blockAt (x ++ y ++ z) 2) := by
      rw [ReorderBlocks, if_neg (by rw [L]; simp), f1, f2, f3]
      rfl
    rw [decodePacketPlain, decodePacketPlain, hcan, hre, A1, A0, A2]
  · -- slots carry pac2, pac3, pac1; canonical buffer is z ++ x ++ y
    obtain ⟨T0, T1, T2, A0, A1, A2, L⟩ :=
      reorderBlocks_slots x y z h2 h3 h1 _ _ _ t2 t3 t1
    have f1 : findTagPos (x ++ y ++ z) Block1Tag = some 2 := by
      rw [findTagPos, T2, T1, T0]; decide
    have f2 : findTagPos (x ++ y ++ z) Block2Tag = some 0 := by
      rw [findTagPos, T2, T1, T0]; decide
    have f3 : findTagPos (x ++ y ++ z) Block3Tag = some 1 := by
      rw [findTagPos, T2, T1, T0]; decide
    have hre : ReorderBlocks (x ++ y ++ z) =
        .ok (blockAt (x ++ y ++ z) 2 ++ blockAt (x ++ y ++ z) 0 ++ blockAt (x ++ y ++ z) 1) := by
      rw [ReorderBlocks, if_neg (by rw [L]; simp), f1, f2, f3]
      rfl
    rw [decodePacketPlain, decodePacketPlain, hcan, hre, A2, A0, A1]
  · -- slots carry pac3, pac1, pac2; canonical buffer is y ++ z ++ x
    obtain ⟨T0, T1, T2, A0, A1, A2, L⟩ :=
      reorderBlocks_slots x y z h3 h1 h2 _ _ _ t3 t1 t2
    have f1 : findTagPos (x ++ y ++ z) Block1Tag = some 1 := by
      rw [findTagPos, T2, T1, T0]; decide
    have f2 : findTagPos (x ++ y ++ z) Block2Tag = some 2 := by
      rw [findTagPos, T2, T1, T0]; decide
    have f3 : findTagPos (x ++ y ++ z) Block3Tag = some 0 := by
      rw [findTagPos, T2, T1, T0]; decide
    have hre : ReorderBlocks (x ++ y ++ z) =
        .ok (blockAt (x ++ y ++ z) 1 ++ blockAt (x ++ y ++ z) 2 ++ blockAt (x ++ y ++ z) 0) := by
      rw [ReorderBlocks, if_neg (by rw [L]; simp), f1, f2, f3]
      rfl
    rw [decodePacketPlain, decodePacketPlain, hcan, hre, A1, A2, A0]
  · -- slots carry pac3, pac2, pac1; canonical buffer is z ++ y ++ x
    obtain ⟨T0, T1, T2, A0, A1, A2, L⟩ :=
      reorderBlocks_slots x y z h3 h2 h1 _ _ _ t3 t2 t1
    have f1 : findTagPos (x ++ y ++ z) Block1Tag = some 2 := by
      rw [findTagPos, T2, T1, T0]; decide
    have f2 : findTagPos (x ++ y ++ z) Block2Tag = some 1 := by
      rw [findTagPos, T2, T1, T0]; decide
    have f3 : findTagPos (x ++ y ++ z) Block3Tag = some 0 := by
      rw [findTagPos, T2, T1, T0]; decide
    have hre : ReorderBlocks (x ++ y ++ z) =
        .ok (blockAt (x ++ y ++ z) 2 ++ blockAt (x ++ y ++ z) 1 ++ blockAt (x ++ y ++ z) 0) := by
      rw [ReorderBlocks, if_neg (by rw [L]; simp), f1, f2, f3]
      rfl
    rw [decodePacketPlain, decodePacketPlain, hcan, hre, A2, A1, A0]

/-- Witness for C4: the fixture blocks placed in pac2-pac1-pac3 order
decode identically to the canonical order. -/
theorem decode_block_order_independent_witness :
    (pac1Body ++ [218, 27, 0, 0]).length = 64 ∧
    decodePacketPlain ((pac2Body ++ [51, 183, 0, 0]) ++ (pac1Body ++ [218, 27, 0, 0]) ++
        (pac3Body ++ [40, 5, 0, 0])) =
      decodePacketPlain ((pac1Body ++ [218, 27, 0, 0]) ++ (pac2Body ++ [51, 183, 0, 0]) ++
        (pac3Body ++ [40, 5, 0, 0])) :=
  ⟨by decide,
   decode_block_order_independent _ _ _ _ _ _ (by decide) (by decide) (by decide)
     (by decide) (by decide) (by decide)
     (Or.inr (Or.inr (Or.inl ⟨rfl, rfl, rfl⟩)))⟩

/-! ## Recording stream decoder lemmas -/

theorem byteAt_slice (data : List Nat) (off n j : Nat) (h : j < n) :
    byteAt (slice data off n) j = byteAt data (off + j) := by
  simp [slice, byteAt, List.getD_eq_getElem?_getD, List.getElem?_range, h]

theorem slice_eq_take (b : List Nat) (n : Nat) (h : n ≤ b.length) :
    slice b 0 n = b.take n := by
  apply List.ext_getElem
  · simp [slice]
    omega
  · intro i h1 h2
    simp only [slice, List.getElem_map, List.getElem_range, byteAt, Nat.zero_add,
      List.getD_eq_getElem?_getD, List.getElem_take,
      List.getElem?_eq_getElem (by simp [slice] at h1; omega : i < b.length),
      Option.getD_some]

theorem slice_drop (b : List Nat) (d off n : Nat) :
    slice (b.drop d) off n = slice b (d + off) n := by
  unfold slice
  apply List.map_congr_left
  intro i _
  simp only [byteAt, List.getD_eq_getElem?_getD, List.getElem?_drop]
  rw [Nat.add_assoc]

theorem leU32_slice (b : List Nat) (off j : Nat) (h : j + 4 ≤ 8) :
    leU32 (slice b off 8) j = leU32 b (off + j) := by
  unfold leU32
  rw [byteAt_slice _ _ _ _ (by omega), byteAt_slice _ _ _ _ (by omega),
      byteAt_slice _ _ _ _ (by omega), byteAt_slice _ _ _ _ (by omega)]
  simp [Nat.add_assoc]

theorem parseRecord_slice (b : List Nat) (off : Nat) :
    parseRecord (slice b off 8) =
      { Voltage := (leU32 b off : ℚ) / 10000,
        Current := (leU32 b (off + 4) : ℚ) / 100000 } := by
  have h0 : leU32 (slice b off 8) 0 = leU32 b off := by
    simpa using leU32_slice b off 0 (by omega)
  have h4 : leU32 (slice b off 8) 4 = leU32 b (off + 4) := leU32_slice b off 4 (by omega)
  simp only [parseRecord, RecordingEntry.mk.injEq, h0, h4]
  constructor
  · rw [div_div]
    norm_num
  · rw [div_div]
    norm_num

theorem consumeRecords_small (b : List Nat) (h : b.length < 8) :
    consumeRecords b = ([], b) := by
  rw [consumeRecords]
  simp [Nat.not_le.mpr h]

theorem consumeRecords_step (b : List Nat) (h : 8 ≤ b.length) :
    consumeRecords b = (parseRecord (b.take 8) :: (consumeRecords (b.drop 8)).1,
                        (consumeRecords (b.drop 8)).2) := by
  rw [consumeRecords]
  obtain ⟨es, rest⟩ := consumeRecords (b.drop 8)
  simp [h]

theorem consumeRecords_append_aux (n : Nat) :
    ∀ b m : List Nat, b.length ≤ n →
      consumeRecords (b ++ m) =
        ((consumeRecords b).1 ++ (consumeRecords ((consumeRecords b).2 ++ m)).1,
         (consumeRecords ((consumeRecords b).2 ++ m)).2) := by
  induction n with
  | zero =>
    intro b m hb
    rw [consumeRecords_small b (by omega)]
    simp
  | succ n ih =>
    intro b m hb
    by_cases h8 : 8 ≤ b.length
    · have hbm : 8 ≤ (b ++ m).length := by simp; omega
      rw [consumeRecords_step b h8, consumeRecords_step (b ++ m) hbm,
          List.take_append_of_le_length h8, List.drop_append_of_le_length h8,
          ih (b.drop 8) m (by simp; omega)]
      simp
    · rw [consumeRecords_small b (by omega)]
      simp

theorem consumeRecords_append (b m : List Nat) :
    consumeRecords (b ++ m) =
      ((consumeRecords b).1 ++ (consumeRecords ((consumeRecords b).2 ++ m)).1,
       (consumeRecords ((consumeRecords b).2 ++ m)).2) :=
  consumeRecords_append_aux b.length b m le_rfl

theorem consumeRecords_closed_aux (n : Nat) :
    ∀ b : List Nat, b.length ≤ n →
      (consumeRecords b).1 = (List.range (b.length / 8)).map
          (fun k => parseRecord (slice b (8 * k) 8)) ∧
      (consumeRecords b).2.length = b.length % 8 := by
  induction n with
  | zero =>
    intro b hb
    rw [consumeRecords_small b (by omega)]
    have hb0 : b.length = 0 := by omega
    simp [hb0]
  | succ n ih =>
    intro b hb
    by_cases h8 : 8 ≤ b.length
    · obtain ⟨ih1, ih2⟩ := ih (b.drop 8) (by simp; omega)
      rw [consumeRecords_step b h8]
      have hdiv : b.length / 8 = (b.drop 8).length / 8 + 1 := by simp; omega
      refine ⟨?_, ?_⟩
      · simp only [ih1, hdiv, List.range_succ_eq_map, List.map_cons, List.map_map]
        congr 1
        · rw [show 8 * 0 = 0 by omega, slice_eq_take b 8 h8]
        · apply List.map_congr_left
          intro k _
          simp only [Function.comp_apply]
          rw [slice_drop, show 8 + 8 * k = 8 * (k + 1) by omega]
      · simp only [ih2, List.length_drop]
        omega
    · rw [consumeRecords_small b (by omega)]
      have : b.length / 8 = 0 := by omega
      simp [this]
      omega

theorem consumeRecords_closed (b : List Nat) :
    (consumeRecords b).1 = (List.range (b.length / 8)).map
        (fun k => parseRecord (slice b (8 * k) 8)) ∧
    (consumeRecords b).2.length = b.length % 8 :=
  consumeRecords_closed_aux b.length b le_rfl

theorem getRecordingsLoop_step (c : List Nat) (cs : List (List Nat))
    (buffer : List Nat) (hc : c ≠ []) :
    getRecordingsLoop (c :: cs) buffer =
      ((consumeRecords (buffer ++ c)).1 ++
         (getRecordingsLoop cs (consumeRecords (buffer ++ c)).2).1,
       ChanEvent.read 8 :: (getRecordingsLoop cs (consumeRecords (buffer ++ c)).2).2) := by
  rw [getRecordingsLoop]
  rcases h1 : consumeRecords (buffer ++ c) with ⟨es, b2⟩
  rcases h2 : getRecordingsLoop cs b2 with ⟨more, evs⟩
  simp [hc, h1, h2]

theorem getRecordingsLoop_closed (cs : List (List Nat)) :
    ∀ (buffer : List Nat) (rest : List (List Nat)),
      buffer.length < 8 → (∀ c ∈ cs, c ≠ []) →
      (getRecordingsLoop (cs ++ [] :: rest) buffer).1 =
        (consumeRecords (buffer ++ cs.flatten)).1 := by
  induction cs with
  | nil =>
    intro buffer rest hb _
    simp [getRecordingsLoop, consumeRecords_small buffer hb]
  | cons c cs ih =>
    intro buffer rest hb hne
    have hc : c ≠ [] := hne c (by simp)
    rw [List.cons_append, getRecordingsLoop_step c (cs ++ [] :: rest) buffer hc,
        ih (consumeRecords (buffer ++ c)).2 rest
          (by rw [(consumeRecords_closed _).2]; omega)
          (fun c' hc' => hne c' (by simp [hc'])),
        List.flatten_cons, ← List.append_assoc,
        consumeRecords_append (buffer ++ c) cs.flatten]

/-! ## Claim C7 — recording stream decode -/

/-- C7: for every sequence of non-empty channel reads of arbitrary sizes
followed by a zero-length read, `GetRecordings` (in Firmware mode) succeeds —
the zero-length read is end-of-data, not an error — and returns exactly
`⌊bytes/8⌋` entries in arrival order, the k-th entry holding the LE uint32 at
byte 8k divided by 10000 (volts) and the LE uint32 at byte 8k+4 divided by
100000 (amperes); any tail shorter than 8 bytes is silently discarded. -/
theorem getRecordings_stream_decode (cs rest : List (List Nat))
    (hne : ∀ c ∈ cs, c ≠ []) :
    (GetRecordings DeviceMode.ModeFirmware (cs ++ [] :: rest)).1 =
      .ok ((List.range (cs.flatten.length / 8)).map (fun k =>
        { Voltage := (leU32 cs.flatten (8 * k) : ℚ) / 10000,
          Current := (leU32 cs.flatten (8 * k + 4) : ℚ) / 100000 })) := by
  have hl := getRecordingsLoop_closed cs [] rest (by simp) hne
  rw [List.nil_append, (consumeRecords_closed cs.flatten).1] at hl
  rcases hpair : getRecordingsLoop (cs ++ [] :: rest) [] with ⟨es, revs⟩
  rw [hpair] at hl
  simp only at hl
  rw [GetRecordings, if_neg (by simp), hpair]
  simp only
  rw [hl]
  congr 1
  apply List.map_congr_left
  intro k _
  rw [parseRecord_slice]

/-- Witness chunk sequence for C7: sizes 4 and 7 — one complete 8-byte
record plus a 3-byte tail. -/
def recChunksFix : List (List Nat) := [[1, 0, 0, 0], [2, 0, 0, 0, 9, 9, 9]]

/-- Witness for C7 at the concrete chunk sequence. -/
theorem getRecordings_stream_decode_witness :
    (∀ c ∈ recChunksFix, c ≠ []) ∧
    (GetRecordings DeviceMode.ModeFirmware (recChunksFix ++ [] :: [])).1 =
      .ok ((List.range (recChunksFix.flatten.length / 8)).map (fun k =>
        { Voltage := (leU32 recChunksFix.flatten (8 * k) : ℚ) / 10000,
          Current := (leU32 recChunksFix.flatten (8 * k + 4) : ℚ) / 100000 })) :=
  ⟨by decide, getRecordings_stream_decode recChunksFix [] (by decide)⟩

/-! ## Firmware chunk-transfer lemmas -/

/-- `readResponse` on a channel whose next read returns exactly the
requested bytes. -/
theorem readResponse_exact (c : List Nat) (rest : List (List Nat)) (size : Nat)
    (h1 : c.length = size) (h2 : 0 < size) :
    readResponse (c :: rest) size [] = some (c, rest) := by
  have hc : c ≠ [] := by
    intro h
    rw [h] at h1
    simp at h1
    omega
  rw [readResponse.eq_def, if_neg (by simp; omega)]
  simp only [hc, ite_false]
  simp only [List.length_nil, Nat.sub_zero, List.nil_append]
  rw [List.take_of_length_le (by omega), readResponse.eq_def, if_pos (by omega)]

/-- One fully acknowledged chunk transfer step. -/
theorem sendChunks_step (fw : List Nat) (tc : Nat) (stream2 : List (List Nat))
    (bs cs : Nat) (h : bs < fw.length) :
    sendChunks fw tc (ChunkOKResponse :: stream2) bs cs =
      ((sendChunks fw tc stream2 (bs + ((fw.drop bs).take FirmwareChunkSize).length) (cs + 1)).1,
       ChanEvent.write ((fw.drop bs).take FirmwareChunkSize) :: ChanEvent.read 2 ::
         (sendChunks fw tc stream2 (bs + ((fw.drop bs).take FirmwareChunkSize).length) (cs + 1)).2.1,
       (⟨bs + ((fw.drop bs).take FirmwareChunkSize).length, fw.length, cs + 1, tc⟩ :
          FirmwareUpdateProgress) ::
         (sendChunks fw tc stream2 (bs + ((fw.drop bs).take FirmwareChunkSize).length) (cs + 1)).2.2) := by
  rw [sendChunks, dif_pos h, readResponse_exact ChunkOKResponse stream2 2 (by decide) (by decide)]
  rcases hrec : sendChunks fw tc stream2
      (bs + ((fw.drop bs).take FirmwareChunkSize).length) (cs + 1) with ⟨r, evs, ps⟩
  simp only [hrec]
  simp

/-- Closed form of the chunk loop on a fully acknowledging channel, for a
byte position that is an exact multiple of the chunk size (as every reachable
loop state is). -/
theorem sendChunks_full_ack_aux (n : Nat) :
    ∀ (fw : List Nat) (tc j m : Nat) (rest : List (List Nat)),
      fw.length - 64 * j ≤ n →
      (fw.length + 63) / 64 - j ≤ m →
      sendChunks fw tc (List.replicate m ChunkOKResponse ++ rest) (64 * j) j =
        (.ok (),
         ((List.range' j ((fw.length + 63) / 64 - j)).map (fun i =>
            [ChanEvent.write ((fw.drop (64 * i)).take 64), ChanEvent.read 2])).flatten,
         (List.range' j ((fw.length + 63) / 64 - j)).map (fun i =>
            (⟨min (64 * (i + 1)) fw.length, fw.length, i + 1, tc⟩ :
              FirmwareUpdateProgress))) := by
  induction n with
  | zero =>
    intro fw tc j m rest hn hm
    rw [sendChunks, dif_neg (by omega)]
    rw [show (fw.length + 63) / 64 - j = 0 by omega]
    rfl
  | succ n ih =>
    intro fw tc j m rest hn hm
    by_cases hlt : 64 * j < fw.length
    · obtain ⟨m', rfl⟩ : ∃ m', m = m' + 1 := ⟨m - 1, by omega⟩
      rw [List.replicate_succ, List.cons_append, sendChunks_step fw tc _ (64 * j) j hlt]
      simp only [FirmwareChunkSize]
      have hlen : ((fw.drop (64 * j)).take 64).length = min 64 (fw.length - 64 * j) := by
        simp
      rw [hlen]
      have hcnt : (fw.length + 63) / 64 - j = ((fw.length + 63) / 64 - (j + 1)) + 1 := by
        omega
      rw [hcnt, List.range'_succ, List.map_cons, List.map_cons, List.flatten_cons]
      by_cases hmore : 64 * (j + 1) < fw.length
      · rw [show min 64 (fw.length - 64 * j) = 64 by omega,
            show 64 * j + 64 = 64 * (j + 1) by omega,
            ih fw tc (j + 1) m' rest (by omega) (by omega),
            show min (64 * (j + 1)) fw.length = 64 * (j + 1) by omega]
        simp [List.cons_append]
      · rw [show 64 * j + min 64 (fw.length - 64 * j) = fw.length by omega]
        rw [sendChunks, dif_neg (by omega)]
        rw [show (fw.length + 63) / 64 - (j + 1) = 0 by omega,
            show min (64 * (j + 1)) fw.length = fw.length by omega]
        simp [List.cons_append]
    · rw [sendChunks, dif_neg (by omega)]
      rw [show (fw.length + 63) / 64 - j = 0 by omega]
      rfl

/-! ## Claim C6 — firmware chunking and progress reporting -/

/-- C6: for every non-empty firmware buffer whose transfer the channel fully
acknowledges ("uprdy", then "OK" per chunk), `UpdateFirmware` succeeds; the
chunk writes on the wire are exactly the consecutive 64-byte slices of the
buffer (the chunk count is `ceil(len/64)`, and every chunk but possibly the
last has exactly 64 bytes); the progress observer fires exactly once per
chunk, in order, with strictly increasing bytes-sent and chunks-sent, and
the final observation reports bytes-sent equal to the total byte count. -/
theorem updateFirmware_chunking (fw : List Nat) (hne : fw ≠ []) :
    UpdateFirmware DeviceMode.ModeBootloader fw
        (UpdateModeResponse :: List.replicate ((fw.length + 63) / 64) ChunkOKResponse) =
      (.ok (),
       sendCommandEvents CmdUpdate ++ [ChanEvent.read 5] ++
         ((List.range ((fw.length + 63) / 64)).map (fun i =>
            [ChanEvent.write ((fw.drop (64 * i)).take 64), ChanEvent.read 2])).flatten,
       (List.range ((fw.length + 63) / 64)).map (fun i =>
          (⟨min (64 * (i + 1)) fw.length, fw.length, i + 1, (fw.length + 63) / 64⟩ :
            FirmwareUpdateProgress))) ∧
    (∀ i, i + 1 < (fw.length + 63) / 64 → ((fw.drop (64 * i)).take 64).length = 64) ∧
    ((List.range ((fw.length + 63) / 64)).map (fun i =>
        (⟨min (64 * (i + 1)) fw.length, fw.length, i + 1, (fw.length + 63) / 64⟩ :
          FirmwareUpdateProgress))).Pairwise
      (fun p q => p.BytesSent < q.BytesSent ∧ p.ChunksSent < q.ChunksSent) ∧
    (0 < (fw.length + 63) / 64 ∧
     ∀ _ : (fw.length + 63) / 64 - 1 <
         ((List.range ((fw.length + 63) / 64)).map (fun i =>
            (⟨min (64 * (i + 1)) fw.length, fw.length, i + 1, (fw.length + 63) / 64⟩ :
              FirmwareUpdateProgress))).length,
       (((List.range ((fw.length + 63) / 64)).map (fun i =>
          (⟨min (64 * (i + 1)) fw.length, fw.length, i + 1, (fw.length + 63) / 64⟩ :
            FirmwareUpdateProgress)))[(fw.length + 63) / 64 - 1]).BytesSent = fw.length ∧
       (((List.range ((fw.length + 63) / 64)).map (fun i =>
          (⟨min (64 * (i + 1)) fw.length, fw.length, i + 1, (fw.length + 63) / 64⟩ :
            FirmwareUpdateProgress)))[(fw.length + 63) / 64 - 1]).ChunksSent =
         (fw.length + 63) / 64) := by
  have hlen0 : 0 < fw.length := by
    cases fw
    · exact absurd rfl hne
    · simp
  refine ⟨?_, ?_, ?_, ?_, ?_⟩
  · rw [UpdateFirmware, if_neg (by simp), if_neg (by omega)]
    rw [readResponse_exact UpdateModeResponse _ 5 (by decide) (by decide)]
    have haux := sendChunks_full_ack_aux fw.length fw ((fw.length + 63) / 64) 0
        ((fw.length + 63) / 64) [] (by omega) (by omega)
    rw [show (64 : Nat) * 0 = 0 by omega, List.append_nil] at haux
    rw [show fw.length + FirmwareChunkSize - 1 = fw.length + 63 by
          simp [FirmwareChunkSize]]
    rw [show (FirmwareChunkSize : Nat) = 64 by rfl]
    rcases hpair : sendChunks fw ((fw.length + 63) / 64)
        (List.replicate ((fw.length + 63) / 64) ChunkOKResponse) 0 0 with ⟨r, evs, ps⟩
    rw [hpair] at haux
    simp only [if_neg (by simp : ¬UpdateModeResponse ≠ UpdateModeResponse)]
    simp only [Prod.mk.injEq] at haux
    obtain ⟨h1, h2, h3⟩ := haux
    simp only [hpair, h1, h2, h3, List.range_eq_range', Nat.sub_zero]
  · intro i hi
    simp
    omega
  · rw [List.pairwise_iff_getElem]
    intro i j hi hj hij
    simp only [List.length_map, List.length_range] at hi hj
    simp only [List.getElem_map, List.getElem_range]
    omega
  · omega
  · intro hlt
    simp only [List.getElem_map, List.getElem_range]
    omega

/-- Witness firmware buffer for C6: 130 bytes, giving 3 chunks (64, 64, 2). -/
def fwFix : List Nat := List.replicate 130 7

/-- Witness for C6 at the 130-byte buffer. -/
theorem updateFirmware_chunking_witness :
    UpdateFirmware DeviceMode.ModeBootloader fwFix
        (UpdateModeResponse :: List.replicate ((fwFix.length + 63) / 64) ChunkOKResponse) =
      (.ok (),
       sendCommandEvents CmdUpdate ++ [ChanEvent.read 5] ++
         ((List.range ((fwFix.length + 63) / 64)).map (fun i =>
            [ChanEvent.write ((fwFix.drop (64 * i)).take 64), ChanEvent.read 2])).flatten,
       (List.range ((fwFix.length + 63) / 64)).map (fun i =>
          (⟨min (64 * (i + 1)) fwFix.length, fwFix.length, i + 1, (fwFix.length + 63) / 64⟩ :
            FirmwareUpdateProgress))) ∧
    (∀ i, i + 1 < (fwFix.length + 63) / 64 → ((fwFix.drop (64 * i)).take 64).length = 64) ∧
    ((List.range ((fwFix.length + 63) / 64)).map (fun i =>
        (⟨min (64 * (i + 1)) fwFix.length, fwFix.length, i + 1, (fwFix.length + 63) / 64⟩ :
          FirmwareUpdateProgress))).Pairwise
      (fun p q => p.BytesSent < q.BytesSent ∧ p.ChunksSent < q.ChunksSent) ∧
    (0 < (fwFix.length + 63) / 64 ∧
     ∀ _ : (fwFix.length + 63) / 64 - 1 <
         ((List.range ((fwFix.length + 63) / 64)).map (fun i =>
            (⟨min (64 * (i + 1)) fwFix.length, fwFix.length, i + 1, (fwFix.length + 63) / 64⟩ :
              FirmwareUpdateProgress))).length,
       (((List.range ((fwFix.length + 63) / 64)).map (fun i =>
          (⟨min (64 * (i + 1)) fwFix.length, fwFix.length, i + 1, (fwFix.length + 63) / 64⟩ :
            FirmwareUpdateProgress)))[(fwFix.length + 63) / 64 - 1]).BytesSent = fwFix.length ∧
       (((List.range ((fwFix.length + 63) / 64)).map (fun i =>
          (⟨min (64 * (i + 1)) fwFix.length, fwFix.length, i + 1, (fwFix.length + 63) / 64⟩ :
            FirmwareUpdateProgress)))[(fwFix.length + 63) / 64 - 1]).ChunksSent =
         (fwFix.length + 63) / 64) :=
  updateFirmware_chunking fwFix (by decide)

/-! ## CRC-16 injectivity: a single-byte change always changes the CRC

The CRC state stays below 2^16 and every update step is injective on that
range, so two 60-byte bodies differing in exactly one byte have different
CRCs. -/

theorem crcShiftStep_lt (c : Nat) (h : c < 65536) : crcShiftStep c < 65536 := by
  have h2 : c / 2 < 2 ^ 16 := by norm_num; omega
  rw [crcShiftStep]
  split
  · have := Nat.xor_lt_two_pow h2 (by norm_num : (0xA001 : Nat) < 2 ^ 16)
    calc (c / 2) ^^^ 0xA001 < 2 ^ 16 := this
      _ = 65536 := by norm_num
  · omega

/-- XOR-ing in the polynomial always sets bit 15 of a sub-2^15 value. -/
theorem xor_poly_ge (x : Nat) (hx : x < 32768) : 32768 ≤ x ^^^ 0xA001 := by
  by_contra hlt
  push_neg at hlt
  have h1 : (x ^^^ 0xA001).testBit 15 = false :=
    Nat.testBit_lt_two_pow (by norm_num; omega)
  rw [Nat.testBit_xor, Nat.testBit_lt_two_pow (show x < 2 ^ 15 by norm_num; omega),
      show Nat.testBit 0xA001 15 = true by decide] at h1
  simp at h1

theorem crcShiftStep_inj (c c' : Nat) (hc : c < 65536) (hc' : c' < 65536)
    (h : crcShiftStep c = crcShiftStep c') : c = c' := by
  rw [crcShiftStep, crcShiftStep] at h
  rcases Nat.mod_two_eq_zero_or_one c with p | p <;>
    rcases Nat.mod_two_eq_zero_or_one c' with p' | p'
  · simp [p, p'] at h
    omega
  · simp [p, p'] at h
    have := xor_poly_ge (c' / 2) (by omega)
    omega
  · simp [p, p'] at h
    have := xor_poly_ge (c / 2) (by omega)
    omega
  · simp [p, p'] at h
    omega

theorem crcIter_lt (k : Nat) :
    ∀ c : Nat, c < 65536 → crcShiftStep^[k] c < 65536 := by
  induction k with
  | zero => intro c h; simpa using h
  | succ k ih =>
    intro c h
    rw [Function.iterate_succ_apply]
    exact ih _ (crcShiftStep_lt c h)

theorem crcIter_inj (k : Nat) :
    ∀ c c' : Nat, c < 65536 → c' < 65536 →
      crcShiftStep^[k] c = crcShiftStep^[k] c' → c = c' := by
  induction k with
  | zero => intro c c' _ _ h; simpa using h
  | succ k ih =>
    intro c c' hc hc' h
    rw [Function.iterate_succ_apply, Function.iterate_succ_apply] at h
    exact crcShiftStep_inj c c' hc hc'
      (ih _ _ (crcShiftStep_lt c hc) (crcShiftStep_lt c' hc') h)

theorem crcByteStep_lt (c b : Nat) (hc : c < 65536) (hb : b < 256) :
    crcByteStep c b < 65536 := by
  rw [crcByteStep]
  refine crcIter_lt 8 _ ?_
  have := Nat.xor_lt_two_pow (show c < 2 ^ 16 by norm_num; omega)
    (show b < 2 ^ 16 by norm_num; omega)
  omega

theorem crcByteStep_injState (c c' b : Nat) (hc : c < 65536) (hc' : c' < 65536)
    (hb : b < 256) (h : crcByteStep c b = crcByteStep c' b) : c = c' := by
  rw [crcByteStep, crcByteStep] at h
  have hxb : c ^^^ b < 65536 := by
    have := Nat.xor_lt_two_pow (show c < 2 ^ 16 by norm_num; omega)
      (show b < 2 ^ 16 by norm_num; omega)
    omega
  have hxb' : c' ^^^ b < 65536 := by
    have := Nat.xor_lt_two_pow (show c' < 2 ^ 16 by norm_num; omega)
      (show b < 2 ^ 16 by norm_num; omega)
    omega
  exact Nat.xor_left_injective (crcIter_inj 8 _ _ hxb hxb' h)

theorem crcByteStep_injByte (c b b' : Nat) (hc : c < 65536) (hb : b < 256)
    (hb' : b' < 256) (h : crcByteStep c b = crcByteStep c b') : b = b' := by
  rw [crcByteStep, crcByteStep] at h
  have hxb : c ^^^ b < 65536 := by
    have := Nat.xor_lt_two_pow (show c < 2 ^ 16 by norm_num; omega)
      (show b < 2 ^ 16 by norm_num; omega)
    omega
  have hxb' : c ^^^ b' < 65536 := by
    have := Nat.xor_lt_two_pow (show c < 2 ^ 16 by norm_num; omega)
      (show b' < 2 ^ 16 by norm_num; omega)
    omega
  exact Nat.xor_right_injective (crcIter_inj 8 _ _ hxb hxb' h)

theorem crcFold_lt (l : List Nat) :
    ∀ c : Nat, c < 65536 → (∀ b ∈ l, b < 256) → l.foldl crcByteStep c < 65536 := by
  induction l with
  | nil => intro c hc _; simpa using hc
  | cons b t ih =>
    intro c hc hl
    rw [List.foldl_cons]
    exact ih _ (crcByteStep_lt c b hc (hl b (by simp))) (fun x hx => hl x (by simp [hx]))

theorem crcFold_ne (l : List Nat) :
    ∀ c c' : Nat, c < 65536 → c' < 65536 → (∀ b ∈ l, b < 256) → c ≠ c' →
      l.foldl crcByteStep c ≠ l.foldl crcByteStep c' := by
  induction l with
  | nil => intro c c' _ _ _ hne; simpa using hne
  | cons b t ih =>
    intro c c' hc hc' hl hne
    rw [List.foldl_cons, List.foldl_cons]
    have hb : b < 256 := hl b (by simp)
    refine ih _ _ (crcByteStep_lt c b hc hb) (crcByteStep_lt c' b hc' hb)
      (fun x hx => hl x (by simp [hx])) ?_
    intro heq
    exact hne (crcByteStep_injState c c' b hc hc' hb heq)

theorem crc_fold_set_ne (l : List Nat) :
    ∀ (j v c : Nat), (∀ b ∈ l, b < 256) → j < l.length → v < 256 → v ≠ l.getD j 0 →
      c < 65536 → (l.set j v).foldl crcByteStep c ≠ l.foldl crcByteStep c := by
  induction l with
  | nil =>
    intro j v c _ hj
    simp at hj
  | cons b t ih =>
    intro j v c hl hj hv hne hc
    have hb : b < 256 := hl b (by simp)
    cases j with
    | zero =>
      rw [show (b :: t).set 0 v = v :: t from rfl, List.foldl_cons, List.foldl_cons]
      rw [List.getD_cons_zero] at hne
      refine crcFold_ne t _ _ (crcByteStep_lt c v hc hv) (crcByteStep_lt c b hc hb)
        (fun x hx => hl x (by simp [hx])) ?_
      intro heq
      exact hne (crcByteStep_injByte c v b hc hv hb heq)
    | succ j' =>
      rw [show (b :: t).set (j' + 1) v = b :: t.set j' v from rfl,
          List.foldl_cons, List.foldl_cons]
      rw [List.getD_cons_succ] at hne
      exact ih j' v (crcByteStep c b) (fun x hx => hl x (by simp [hx]))
        (by simpa using hj) hv hne (crcByteStep_lt c b hc hb)

/-- A single in-range byte change always changes the CRC-16/MODBUS value. -/
theorem crc_set_ne (l : List Nat) (j v : Nat)
    (hl : ∀ b ∈ l, b < 256) (hj : j < l.length) (hv : v < 256)
    (hne : v ≠ l.getD j 0) :
    CalculateCRC16Modbus (l.set j v) ≠ CalculateCRC16Modbus l :=
  crc_fold_set_ne l j v 0xFFFF hl hj hv hne (by norm_num)

/-! ## Single-byte tampering of a valid packet -/

theorem byteAt_lt (data : List Nat) (h : Bytes data) (i : Nat) : byteAt data i < 256 := by
  rcases hx : data[i]? with _ | b
  · simp [byteAt, List.getD_eq_getElem?_getD, hx]
  · have hm : b ∈ data := List.getElem?_mem hx
    simp [byteAt, List.getD_eq_getElem?_getD, hx]
    exact h b hm

theorem slice_bytes (data : List Nat) (h : Bytes data) (off n : Nat) :
    ∀ b ∈ slice data off n, b < 256 := by
  intro b hb
  obtain ⟨i, _, rfl⟩ := List.mem_map.mp hb
  exact byteAt_lt data h _

/-- Inversion: a successful parse pins down size, tags and checksums. -/
theorem ParseReading_ok_facts (data : List Nat) (r : Reading)
    (h : ParseReading data = .ok r) :
    data.length = 192 ∧ blockTag data 0 = Block1Tag ∧ blockTag data 1 = Block2Tag ∧
    blockTag data 2 = Block3Tag ∧ blockChecksumOK data 0 = true ∧
    blockChecksumOK data 1 = true ∧ blockChecksumOK data 2 = true := by
  rw [ParseReading] at h
  split at h
  · exact absurd h (by simp)
  split at h
  · exact absurd h (by simp)
  split at h
  · exact absurd h (by simp)
  split at h
  · exact absurd h (by simp)
  split at h
  · exact absurd h (by simp)
  split at h
  · exact absurd h (by simp)
  split at h
  · exact absurd h (by simp)
  rename_i h1 h2 h3 h4 h5 h6 h7
  refine ⟨?_, not_not.mp h2, not_not.mp h4, not_not.mp h6,
    by simpa using h3, by simpa using h5, by simpa using h7⟩
  have := not_not.mp h1
  rw [this]
  rfl

/-- A 192-byte buffer whose tags already sit in canonical positions is
returned untouched by `ReorderBlocks`. -/
theorem reorderBlocks_canonical_tags (data : List Nat) (hlen : data.length = 192)
    (h0 : blockTag data 0 = Block1Tag) (h1 : blockTag data 1 = Block2Tag)
    (h2 : blockTag data 2 = Block3Tag) :
    ReorderBlocks data = .ok data := by
  have f1 : findTagPos data Block1Tag = some 0 := by
    rw [findTagPos, h2, h1, h0]; decide
  have f2 : findTagPos data Block2Tag = some 1 := by
    rw [findTagPos, h2, h1, h0]; decide
  have f3 : findTagPos data Block3Tag = some 2 := by
    rw [findTagPos, h2, h1, h0]; decide
  rw [ReorderBlocks,
      if_neg (by rw [hlen]; simp [PacketSize, BlockSize, NumBlocks]), f1, f2, f3]
  rfl

/-! ## Claim C2 — single-byte tampering -/

/-- C2 counterexample: the claim includes tag bytes (block offsets 0-3), but
tampering a tag byte fails with the missing-block FormatError, not the
checksum error: flipping byte 0 of the (valid) fixture packet makes the
decode fail with `missingBlock`, while the claim demands `checksumFailed`. -/
theorem tamper_tag_byte_not_checksum_error :
    ParseReading fixturePacket = .ok (mkReading fixturePacket) ∧
    decodePacketPlain (fixturePacket.set 0 113) =
      .error (.missingBlock Block1Tag) :=
  ⟨fixture_parse, rfl⟩

/-- C2 (amended): for a valid canonical 192-byte packet, changing a single
byte at offset 4..59 of any of the three blocks (without updating the stored
checksum) makes the decode fail with the ChecksumError of that block,
deterministically.  (Tampering a tag byte, offsets 0-3, instead fails
earlier with a FormatError — see the counterexample.) -/
theorem tamper_payload_byte_checksum_error (data : List Nat) (r : Reading)
    (k j v : Nat)
    (hok : ParseReading data = .ok r)
    (hbytes : Bytes data)
    (hk : k < 3) (hj4 : 4 ≤ j) (hj : j ≤ 59) (hv : v < 256)
    (hne : v ≠ byteAt data (64 * k + j)) :
    decodePacketPlain (data.set (64 * k + j) v) =
      .error (.checksumFailed (k + 1)) := by
  obtain ⟨hlen, ht0, ht1, ht2, hcs0, hcs1, hcs2⟩ := ParseReading_ok_facts data r hok
  set data' := data.set (64 * k + j) v with hdata'
  have hlen' : data'.length = 192 := by rw [hdata', List.length_set, hlen]
  -- tags untouched (tamper offset is ≥ 4 within its block)
  have htag : ∀ m : Nat, m ≤ 2 → blockTag data' m = blockTag data m := by
    intro m hm
    unfold blockTag
    apply slice_congr
    intro i hi
    rw [hdata', byteAt_set,
        if_neg (by
          rintro ⟨heq, _⟩
          simp only [BlockSize] at heq
          omega)]
  -- stored checksums untouched (tamper offset is ≤ 59, stored CRC at 60-61)
  have hstored : ∀ m : Nat, m ≤ 2 → blockStoredCRC data' m = blockStoredCRC data m := by
    intro m hm
    unfold blockStoredCRC
    apply leU16_congr
    intro i hi
    rw [hdata', byteAt_set,
        if_neg (by
          rintro ⟨heq, _⟩
          simp only [BlockSize] at heq
          omega)]
  -- bodies of the other blocks untouched
  have hbody_other : ∀ m : Nat, m ≤ 2 → m ≠ k → blockBody data' m = blockBody data m := by
    intro m hm hmk
    unfold blockBody
    apply slice_congr
    intro i hi
    rw [hdata', byteAt_set,
        if_neg (by
          rintro ⟨heq, _⟩
          simp only [BlockSize] at heq
          omega)]
  have hcs_other : ∀ m : Nat, m ≤ 2 → m ≠ k → blockChecksumOK data' m = blockChecksumOK data m := by
    intro m hm hmk
    unfold blockChecksumOK VerifyChecksum
    rw [hbody_other m hm hmk, hstored m hm]
  -- body of block k is the original body with byte j replaced
  have hbody_k : blockBody data' k = (blockBody data k).set j v := by
    apply List.ext_getElem
    · simp [blockBody, slice]
    · intro i hi1 hi2
      have hi60 : i < 60 := by
        simpa [blockBody, slice] using hi1
      rw [List.getElem_set]
      simp only [blockBody, slice, List.getElem_map, List.getElem_range]
      rw [hdata', byteAt_set]
      rcases eq_or_ne j i with rfl | hji
      · rw [if_pos rfl, if_pos (by constructor <;> [simp only [BlockSize]; omega])]
      · rw [if_neg hji,
            if_neg (by
              rintro ⟨heq, _⟩
              simp only [BlockSize] at heq
              omega)]
  -- the parsed checksum of block k now fails
  have hcrc_eq : CalculateCRC16Modbus (blockBody data k) = blockStoredCRC data k := by
    have e0 := hcs0
    have e1 := hcs1
    have e2 := hcs2
    unfold blockChecksumOK VerifyChecksum at e0 e1 e2
    interval_cases k
    · simpa using e0
    · simpa using e1
    · simpa using e2
  have hcs_k : blockChecksumOK data' k = false := by
    unfold blockChecksumOK VerifyChecksum
    rw [hbody_k, hstored k (by omega), ← hcrc_eq]
    simp only [beq_eq_false_iff_ne, ne_eq]
    exact crc_set_ne (blockBody data k) j v
      (slice_bytes data hbytes _ _)
      (by simp [blockBody, slice]; omega)
      hv
      (by
        have hb := byteAt_slice data (BlockSize * k) 60 j (by omega)
        rw [show (blockBody data k).getD j 0 = byteAt (blockBody data k) j from rfl,
            blockBody, hb]
        simpa [BlockSize] using hne)
  -- reordering is the identity on the tampered buffer
  have hre : ReorderBlocks data' = .ok data' :=
    reorderBlocks_canonical_tags data' hlen'
      ((htag 0 (by omega)).trans ht0)
      ((htag 1 (by omega)).trans ht1)
      ((htag 2 (by omega)).trans ht2)
  rw [decodePacketPlain, hre]
  show ParseReading data' = _
  rw [ParseReading, if_neg (by rw [hlen']; simp [PacketSize, BlockSize, NumBlocks])]
  interval_cases k
  · rw [if_neg (by rw [htag 0 (by omega), ht0]; simp), if_pos hcs_k]
  · rw [if_neg (by rw [htag 0 (by omega), ht0]; simp),
        if_neg (by rw [hcs_other 0 (by omega) (by omega), hcs0]; simp),
        if_neg (by rw [htag 1 (by omega), ht1]; simp), if_pos hcs_k]
  · rw [if_neg (by rw [htag 0 (by omega), ht0]; simp),
        if_neg (by rw [hcs_other 0 (by omega) (by omega), hcs0]; simp),
        if_neg (by rw [htag 1 (by omega), ht1]; simp),
        if_neg (by rw [hcs_other 1 (by omega) (by omega), hcs1]; simp),
        if_neg (by rw [htag 2 (by omega), ht2]; simp), if_pos hcs_k]

/-- Witness for the amended C2: flipping byte 4 of block 0 of the fixture
packet (the first product-name byte) yields the pac1 checksum error. -/
theorem tamper_payload_byte_checksum_error_witness :
    ParseReading fixturePacket = .ok (mkReading fixturePacket) ∧
    decodePacketPlain (fixturePacket.set (64 * 0 + 4) 85) =
      .error (.checksumFailed (0 + 1)) :=
  ⟨fixture_parse,
   tamper_payload_byte_checksum_error fixturePacket (mkReading fixturePacket) 0 4 85
     fixture_parse fixture_bytes (by omega) (by omega) (by omega) (by omega)
     (by decide)⟩

end TC66C
